import Mathlib

/-!
Verification of the versioned wire-protocol codec layer of the fluvio
repository: the attribute parser and value-expression resolver of
`crates/fluvio-protocol-derive` (`util.rs`, `ast/prop.rs`) and the
generated fetch-response helper of
`src/protocol/fluvio-protocol-kf/src/kf_code_gen/fetch.rs`.

The Rust code is shallowly embedded: the relevant fragment of the `syn`
expression AST becomes an inductive type, the fallible parsing functions
become functions into an outcome type that distinguishes a returned
`syn::Error` from a Rust panic, and the token streams produced by the
derive macro are modelled by the run-time semantics of the code they
expand to (a `const` assertion for `validate_versions_tokens`, a guarded
field operation for `version_check_token_stream`), evaluated at the point
where every version bound denotes a statically known integer constant.
-/

namespace Fluvio

/-- Outcome of a fallible Rust computation: a returned value, a returned
`syn::Error` (carrying its message), or a Rust panic (carrying its
message).  A panic is distinguished from an error because `syn::Error`s
are surfaced to the macro user while a panic aborts compilation
uncontrolledly. -/
inductive ParseOutcome (α : Type) where
  | ok (val : α)
  | err (msg : String)
  | panic (msg : String)
deriving DecidableEq, Repr

/-- Whether the outcome is a returned value. -/
def ParseOutcome.isOk {α : Type} : ParseOutcome α → Bool
  | .ok _ => true
  | _ => false

/-- The fragment of `syn::Lit` inspected by `get_expr_value` /
`get_lit_str`: an integer literal (its digits denote a natural number —
the literal grammar has no sign), a string literal, or any other literal
kind. -/
inductive RsLit where
  | int (n : Nat)
  | str (s : String)
  | other
deriving DecidableEq, Repr

/-- The fragment of `syn::Expr` inspected by `get_expr_value`: a literal,
a unary expression (the operator itself is never looked at by the code),
a path (`some id` when `path.get_ident()` yields a single identifier),
or any other expression form. -/
inductive RsExpr where
  | lit (l : RsLit)
  | unary (inner : RsExpr)
  | path (ident : Option String)
  | other
deriving DecidableEq, Repr

/-- `PropAttrsType` from `ast/prop.rs`: a named-constant reference, a
zero-argument function reference, or a 16-bit integer constant
(modelled as an unbounded integer; every value produced by parsing lies
in the `i16` range). -/
inductive PropAttrsType where
  | Lit (name : String)
  | Fn (name : String)
  | Int (val : Int)
deriving DecidableEq, Repr

/-- First character of a Rust identifier. -/
def isIdentStart (c : Char) : Bool := c.isAlpha || c = '_'

/-- Subsequent character of a Rust identifier. -/
def isIdentContinue (c : Char) : Bool := c.isAlphanum || c = '_'

/-- Validity predicate enforced by `proc_macro2::Ident::new`: nonempty,
an identifier-start character followed by identifier characters, and not
the reserved single underscore. -/
def isValidIdent (s : String) : Bool :=
  match s.data with
  | [] => false
  | c :: rest => isIdentStart c && rest.all isIdentContinue && s ≠ "_"

/-- `syn::Ident::new(s, span)`: returns the identifier, or panics when
`s` is not a valid identifier. -/
def ident_new (s : String) : ParseOutcome String :=
  if isValidIdent s then .ok s
  else .panic ("\"" ++ s ++ "\" is not a valid Ident")

/-- `str::strip_suffix("()")`: `some` of the string with the final `()`
removed when it ends in `()`, `none` otherwise. -/
def strip_parens_suffix (s : String) : Option String :=
  if "()".data.isSuffixOf s.data then some (String.mk (s.data.dropLast.dropLast))
  else none

/-- `LitInt::base10_parse::<i16>()` on a literal whose digits denote `n`:
succeeds exactly when the (unsigned) literal fits in `i16`. -/
def base10_parse_i16 (n : Nat) : ParseOutcome Int :=
  if n ≤ 32767 then .ok (Int.ofNat n)
  else .err "number too large to fit in target type"

/-- `get_expr_value` from `util.rs`: resolves a raw bound expression to a
`PropAttrsType`.  Transcribed branch for branch from the source:
* integer literal → `Int` via `base10_parse`;
* string literal: when it contains both `(` and `)` and ends in `()`,
  the suffix is stripped and the rest becomes a `Fn` identifier;
  otherwise the whole string becomes a `Lit` identifier — in both cases
  through `Ident::new`, which panics on a non-identifier string;
* unary expression whose operand is an integer literal → `Int` of the
  operand's value (the unary operator is discarded, so no negation is
  applied); any other operand is an error;
* single-identifier path → `Lit`; other paths are an error;
* everything else is an error naming the attribute. -/
def get_expr_value (attr_name : String) (field : Option RsExpr) :
    ParseOutcome PropAttrsType :=
  match field with
  | some (.lit (.int n)) =>
    (match base10_parse_i16 n with
     | .ok v => .ok (.Int v)
     | .err e => .err e
     | .panic p => .panic p)
  | some (.lit (.str s)) =>
    if s.data.contains '(' && s.data.contains ')' then
      (match strip_parens_suffix s with
       | some base =>
         (match ident_new base with
          | .ok id => .ok (.Fn id)
          | .err e => .err e
          | .panic p => .panic p)
       | none =>
         (match ident_new s with
          | .ok id => .ok (.Lit id)
          | .err e => .err e
          | .panic p => .panic p))
    else
      (match ident_new s with
       | .ok id => .ok (.Lit id)
       | .err e => .err e
       | .panic p => .panic p)
  | some (.lit .other) =>
    .err ("Expected " ++ attr_name ++ " attribute to be a LitStr or LitInt: `"
          ++ attr_name ++ " = \"...\"`")
  | some (.unary inner) =>
    (match inner with
     | .lit (.int n) =>
       (match base10_parse_i16 n with
        | .ok v => .ok (.Int v)
        | .err e => .err e
        | .panic p => .panic p)
     | _ =>
       .err ("Expected " ++ attr_name ++ " to be valid Int: `"
             ++ attr_name ++ " = \"...\"`"))
  | some (.path (some id)) => .ok (.Lit id)
  | some (.path none) =>
    .err ("Attribute " ++ attr_name ++ " needs to be a valid Path: `"
          ++ attr_name ++ " = \"...\"`")
  | _ =>
    .err ("Expected " ++ attr_name ++ " attribute to be a Lit/Path/Unary: `"
          ++ attr_name ++ " = \"...\"`")

/-- `get_lit_str` from `util.rs`: accepts exactly a string literal. -/
def get_lit_str (attr_name : String) (value : Option RsExpr) :
    ParseOutcome String :=
  match value with
  | some (.lit (.str s)) => .ok s
  | some (.lit _) =>
    .err ("Expected " ++ attr_name ++ " attribute to be a string: `"
          ++ attr_name ++ " = \"...\"`")
  | _ =>
    .err ("Expected " ++ attr_name ++ " attribute to be a Lit: `"
          ++ attr_name ++ " = \"...\"`")

/-- `prop_attrs_type_value` from `ast/prop.rs`, rendered as the text of
the token stream it produces: a constant name, a function call
`name()`, an integer constant suffixed `_i16`, or the default `0_i16`
when no bound is present. -/
def prop_attrs_type_value : Option PropAttrsType → String
  | some (.Lit d) => d
  | some (.Fn d) => d ++ "()"
  | some (.Int d) => toString d ++ "_i16"
  | none => "0_i16"

/-- The integer constant denoted by a bound token when it is statically
known: an absent bound denotes `0` (the `0_i16` default) and an `Int`
bound denotes its value; constant and function references are not
statically known. -/
def resolvedConst : Option PropAttrsType → Option Int
  | none => some 0
  | some (.Int n) => some n
  | some _ => none

/-- `PropAttrs` from `ast/prop.rs`: the parsed field attributes.
`min_version` defaults to `0` when not specified; `max_version` is
optional; `default_value` is the literal text of the `default` key;
`ignorable` records whether the `ignorable` key appeared. -/
structure PropAttrs where
  varint : Bool
  min_version : Option PropAttrsType
  max_version : Option PropAttrsType
  default_value : Option String
  ignorable : Option Bool
deriving DecidableEq, Repr

/-- `PropAttrs::default()`: all fields unset. -/
def PropAttrs.init : PropAttrs := ⟨false, none, none, none, none⟩

/-- One nested meta item `key` or `key = value` inside a `#[fluvio(...)]`
attribute.  `key` is the single-identifier path of the item (a
non-identifier path is rejected by the macro with the same error as an
unrecognized key and is not modelled); `value` is the expression parsed
from the `= value` part, `none` when absent or unparsable (mirroring
`parse_attributes_data`, which maps both cases to `None`). -/
structure FluvioMeta where
  key : String
  value : Option RsExpr
deriving DecidableEq, Repr

/-- One outer attribute on a field: its path identifier (when the path
is a single identifier) and, when the path is `fluvio`, its nested meta
items. -/
structure RsAttribute where
  pathIdent : Option String
  fluvioMetas : List FluvioMeta
deriving DecidableEq, Repr

/-- Error message for an unrecognized key inside `#[fluvio(...)]`
(`ERROR` in the `parse_attributes` macro of `util.rs`). -/
def unrecognizedMsg : String := "unrecognized fluvio attribute"

/-- Error message for a repeated key inside `#[fluvio(...)]`
(`ALREADY_SPECIFIED` in the `parse_attributes` macro of `util.rs`). -/
def alreadySpecifiedMsg : String := "fluvio attribute already specified"

/-- One iteration of the `parse_nested_meta` closure expanded from the
`parse_attributes!` invocation in `PropAttrs::from_ast`: the key is
matched against `min_version`, `max_version`, `default`, `ignorable` in
order; a key whose slot is already filled is a `DuplicateAttribute`
error, an unrecognized key is an error, and otherwise the slot is
filled from the parsed value (`get_expr_value` for the version bounds,
`get_lit_str` for `default`, the constant `Some(true)` for
`ignorable`). -/
def PropAttrs.processMeta (st : PropAttrs) (m : FluvioMeta) :
    ParseOutcome PropAttrs :=
  if m.key = "min_version" then
    match st.min_version with
    | some _ => .err alreadySpecifiedMsg
    | none =>
      match get_expr_value m.key m.value with
      | .ok v => .ok { st with min_version := some v }
      | .err e => .err e
      | .panic p => .panic p
  else if m.key = "max_version" then
    match st.max_version with
    | some _ => .err alreadySpecifiedMsg
    | none =>
      match get_expr_value m.key m.value with
      | .ok v => .ok { st with max_version := some v }
      | .err e => .err e
      | .panic p => .panic p
  else if m.key = "default" then
    match st.default_value with
    | some _ => .err alreadySpecifiedMsg
    | none =>
      match get_lit_str m.key m.value with
      | .ok s => .ok { st with default_value := some s }
      | .err e => .err e
      | .panic p => .panic p
  else if m.key = "ignorable" then
    match st.ignorable with
    | some _ => .err alreadySpecifiedMsg
    | none => .ok { st with ignorable := some true }
  else .err unrecognizedMsg

/-- Sequential processing of the nested meta items of one `fluvio`
attribute, aborting at the first error (the `?` on
`attr.parse_nested_meta` in `from_ast`). -/
def PropAttrs.processMetas (st : PropAttrs) :
    List FluvioMeta → ParseOutcome PropAttrs
  | [] => .ok st
  | m :: rest =>
    match st.processMeta m with
    | .ok st2 => st2.processMetas rest
    | .err e => .err e
    | .panic p => .panic p

/-- The loop of the `parse_attributes!` expansion: attributes whose path
is not `fluvio` are skipped, the rest have their nested metas
processed in order. -/
def PropAttrs.processAttrs (st : PropAttrs) :
    List RsAttribute → ParseOutcome PropAttrs
  | [] => .ok st
  | a :: rest =>
    if a.pathIdent = some "fluvio" then
      match st.processMetas a.fluvioMetas with
      | .ok st2 => st2.processAttrs rest
      | .err e => .err e
      | .panic p => .panic p
    else st.processAttrs rest

/-- `PropAttrs::from_ast`: starts from the default, sets `varint` when a
standalone `#[varint]` attribute is present, then runs the
`parse_attributes!` loop over the `fluvio` attributes. -/
def PropAttrs.from_ast (attrs : List RsAttribute) : ParseOutcome PropAttrs :=
  let st0 : PropAttrs :=
    { PropAttrs.init with
        varint := attrs.any (fun a => a.pathIdent = some "varint") }
  st0.processAttrs attrs

/-- `NamedProp` from `ast/prop.rs` (the field type is kept as its
printed name; it is never inspected by the version-gating logic). -/
structure NamedProp where
  field_name : String
  field_type : String
  attrs : PropAttrs
deriving DecidableEq, Repr

/-- `UnnamedProp` from `ast/prop.rs`. -/
structure UnnamedProp where
  field_type : String
  attrs : PropAttrs
deriving DecidableEq, Repr

/-- The `const` assertion generated by `validate_versions_tokens` in
`ast/prop.rs`: when a max bound is declared the assertion is
`assert!(!(min > max), message)`, otherwise it is
`assert!(!(min < 0), message)`; the message names the field when one is
given. -/
structure GenAssert where
  isMinMax : Bool
  message : String
deriving DecidableEq, Repr

/-- `validate_versions_tokens` from `ast/prop.rs`, rendered as the
assertion it generates. -/
def validate_versions_tokens (min_prop max_props : Option PropAttrsType)
    (field : Option String) : GenAssert :=
  match max_props, field with
  | some _, some f =>
    ⟨true, "On " ++ f ++ ", max version is less than min version"⟩
  | some _, none => ⟨true, "Max version is less than min version"⟩
  | none, some f => ⟨false, "On " ++ f ++ ", min version must be positive"⟩
  | none, none => ⟨false, "Min version must be positive"⟩

/-- Compile-time evaluation of the generated `const` assertion, defined
when every bound it mentions denotes a statically known constant
(`none` when a bound is a constant or function reference, whose value
is only known at the generated code's compile time). `Except.error`
carries the assertion's failure message. -/
def evalConstAssert (min_prop max_props : Option PropAttrsType)
    (field : Option String) : Option (Except String Unit) :=
  let a := validate_versions_tokens min_prop max_props field
  match resolvedConst min_prop with
  | none => none
  | some m =>
    if a.isMinMax then
      match resolvedConst max_props with
      | none => none
      | some mx =>
        some (if m > mx then Except.error a.message else Except.ok ())
    else
      some (if m < 0 then Except.error a.message else Except.ok ())

/-- The guard of the field operation generated by
`NamedProp::version_check_token_stream`, evaluated at negotiated
version `v` when the bound tokens denote statically known constants:
with a max bound the generated test is `(min..=max).contains(&version)`,
without one it is `version >= min`. `none` when a mentioned bound is
not statically known. -/
def NamedProp.versionCheckRuns (p : NamedProp) (v : Int) : Option Bool :=
  match resolvedConst p.attrs.min_version with
  | none => none
  | some m =>
    if p.attrs.max_version.isSome then
      match resolvedConst p.attrs.max_version with
      | none => none
      | some mx => some (decide (m ≤ v) && decide (v ≤ mx))
    else
      some (decide (v ≥ m))

/-- The guard of the field operation generated by
`UnnamedProp::version_check_token_stream`, same shape as the named
variant. -/
def UnnamedProp.versionCheckRuns (p : UnnamedProp) (v : Int) : Option Bool :=
  match resolvedConst p.attrs.min_version with
  | none => none
  | some m =>
    if p.attrs.max_version.isSome then
      match resolvedConst p.attrs.max_version with
      | none => none
      | some mx => some (decide (m ≤ v) && decide (v ≤ mx))
    else
      some (decide (v ≥ m))

/-- Bytes written for this field by the generated encode at version `v`:
the field's serialized bytes when the guard runs the field operation,
no bytes otherwise. -/
def NamedProp.encodeFieldBytes (p : NamedProp) (v : Int)
    (fieldBytes : List Nat) : Option (List Nat) :=
  (p.versionCheckRuns v).map fun b => if b then fieldBytes else []

/-- Bytes consumed for this field by the generated decode at version
`v`: the field's encoded length when the guard runs the field
operation, zero bytes otherwise. -/
def NamedProp.decodeFieldConsumed (p : NamedProp) (v : Int)
    (fieldLen : Nat) : Option Nat :=
  (p.versionCheckRuns v).map fun b => if b then fieldLen else 0

/-- The statically known value, if any, of a declared-or-absent max
bound: an absent max bound means unbounded above (`some none`), an
`Int` bound is the constant (`some (some n)`), and a constant or
function reference is not statically known (`none`). -/
def resolvedMaxConst : Option PropAttrsType → Option (Option Int)
  | none => some none
  | some (.Int n) => some (some n)
  | some _ => none

/-- The keys recognized by the `parse_attributes!` invocation in
`PropAttrs::from_ast`. -/
def recognizedKey (k : String) : Bool :=
  k = "min_version" || k = "max_version" || k = "default" || k = "ignorable"

/-- Whether the slot of key `k` is already filled in the parse state
(the `$opt.is_none()` guards of the `parse_attributes!` macro). -/
def keySet (st : PropAttrs) (k : String) : Bool :=
  if k = "min_version" then st.min_version.isSome
  else if k = "max_version" then st.max_version.isSome
  else if k = "default" then st.default_value.isSome
  else if k = "ignorable" then st.ignorable.isSome
  else false

/-- Number of occurrences of key `k` among the nested meta items. -/
def countKey (ms : List FluvioMeta) (k : String) : Nat :=
  (ms.filter (fun x => x.key == k)).length

/-- Each recognized key appears at most once among the meta items. -/
def noDupRecognized (ms : List FluvioMeta) : Bool :=
  decide (countKey ms "min_version" ≤ 1)
  && decide (countKey ms "max_version" ≤ 1)
  && decide (countKey ms "default" ≤ 1)
  && decide (countKey ms "ignorable" ≤ 1)

/-- A meta item whose key is recognized and whose value parses: the
processing of such an item can only fail through the duplicate-key
guard. -/
def metaWf (m : FluvioMeta) : Bool :=
  if m.key = "min_version" then (get_expr_value m.key m.value).isOk
  else if m.key = "max_version" then (get_expr_value m.key m.value).isOk
  else if m.key = "default" then (get_lit_str m.key m.value).isOk
  else m.key = "ignorable"

/-- The nested meta items of the `fluvio` attributes of a field, in
order (the items the `parse_attributes!` loop actually processes). -/
def fluvioMetasOf (attrs : List RsAttribute) : List FluvioMeta :=
  (attrs.filter (fun a => decide (a.pathIdent = some "fluvio"))).flatMap
    (fun a => a.fluvioMetas)

/-- `AbortedTransaction` from `kf_code_gen/fetch.rs`. -/
structure AbortedTransaction where
  producer_id : Int
  first_offset : Int
deriving DecidableEq, Repr

/-- `FetchablePartitionResponse<R>` from `kf_code_gen/fetch.rs`; the
record payload type `R` is the parameter `α` and the `ErrorCode` enum is
modelled by its numeric code. -/
structure FetchablePartitionResponse (α : Type) where
  partition_index : Int
  error_code : Int
  high_watermark : Int
  last_stable_offset : Int
  log_start_offset : Int
  aborted : Option (List AbortedTransaction)
  records : α

/-- `FetchableTopicResponse<R>` from `kf_code_gen/fetch.rs` (the
`PhantomData` member carries no data). -/
structure FetchableTopicResponse (α : Type) where
  name : String
  partitions : List (FetchablePartitionResponse α)
  data : Unit

/-- `KfFetchResponse<R>` from `kf_code_gen/fetch.rs`. -/
structure KfFetchResponse (α : Type) where
  throttle_time_ms : Int
  error_code : Int
  session_id : Int
  topics : List (FetchableTopicResponse α)

/-- The inner loop of `KfFetchResponse::find_partition`: first partition
response with the requested index, in order. -/
def findPartitionInList {α : Type} (partition : Int) :
    List (FetchablePartitionResponse α) →
      Option (FetchablePartitionResponse α)
  | [] => none
  | p :: rest =>
    if p.partition_index = partition then some p
    else findPartitionInList partition rest

/-- The outer loop of `KfFetchResponse::find_partition` over the topic
responses: a topic response with a non-matching name is skipped, a
matching one is searched for the partition index and, when the index is
not found there, the walk continues with the remaining topic
responses. -/
def findPartitionInTopics {α : Type} (topic : String) (partition : Int) :
    List (FetchableTopicResponse α) →
      Option (FetchablePartitionResponse α)
  | [] => none
  | t :: rest =>
    if t.name = topic then
      match findPartitionInList partition t.partitions with
      | some p => some p
      | none => findPartitionInTopics topic partition rest
    else findPartitionInTopics topic partition rest

/-- `KfFetchResponse::find_partition(self, topic, partition)` from
`kf_code_gen/fetch.rs`: the response is taken by value and walked in
declaration order. -/
def KfFetchResponse.find_partition {α : Type} (self : KfFetchResponse α)
    (topic : String) (partition : Int) :
    Option (FetchablePartitionResponse α) :=
  findPartitionInTopics topic partition self.topics

end Fluvio
namespace Fluvio

/-- C1: for a field whose min bound resolves to the constant `m` and whose
max bound is either absent or resolves to the constant in `M?`, the guard
generated by `version_check_token_stream` runs the field operation at
negotiated version `v` exactly when `m ≤ v` and `v` does not exceed the
declared max; with no max bound the condition is exactly `v ≥ m`; the named
and unnamed (tuple) generators produce the same guard for the same
attributes; and when the guard does not run, the generated encode writes no
bytes and the generated decode consumes no bytes for the field. -/
theorem c1_version_gating (p : NamedProp) (q : UnnamedProp) (v m : Int)
    (M? : Option Int) (bytes : List Nat) (len : Nat)
    (hq : q.attrs = p.attrs)
    (hm : resolvedConst p.attrs.min_version = some m)
    (hM : resolvedMaxConst p.attrs.max_version = some M?) :
    (p.versionCheckRuns v = some true ↔ (m ≤ v ∧ ∀ mx, M? = some mx → v ≤ mx))
    ∧ (M? = none → (p.versionCheckRuns v = some true ↔ v ≥ m))
    ∧ q.versionCheckRuns v = p.versionCheckRuns v
    ∧ (p.versionCheckRuns v ≠ some true →
        p.encodeFieldBytes v bytes = some [] ∧ p.decodeFieldConsumed v len = some 0) := by
  have heq : q.versionCheckRuns v = p.versionCheckRuns v := by
    simp only [UnnamedProp.versionCheckRuns, NamedProp.versionCheckRuns, hq]
  cases hmax : p.attrs.max_version with
  | none =>
    simp only [hmax, resolvedMaxConst, Option.some.injEq] at hM
    subst hM
    have hrun : p.versionCheckRuns v = some (decide (v ≥ m)) := by
      simp only [NamedProp.versionCheckRuns, hm]
      simp [hmax]
    refine ⟨?_, fun _ => ?_, heq, fun h => ?_⟩
    · simp [hrun]
    · simp [hrun]
    · rw [hrun] at h
      have hfalse : decide (v ≥ m) = false := by simpa using h
      simp [NamedProp.encodeFieldBytes, NamedProp.decodeFieldConsumed, hrun, hfalse]
  | some pt =>
    cases pt with
    | Int n =>
      simp only [hmax, resolvedMaxConst, Option.some.injEq] at hM
      subst hM
      have hrun : p.versionCheckRuns v = some (decide (m ≤ v) && decide (v ≤ n)) := by
        simp only [NamedProp.versionCheckRuns, hm]
        simp [hmax, resolvedConst]
      refine ⟨?_, fun hcon => by simp at hcon, heq, fun h => ?_⟩
      · simp [hrun]
      · rw [hrun] at h
        have hfalse : (decide (m ≤ v) && decide (v ≤ n)) = false := by simpa using h
        simp [NamedProp.encodeFieldBytes, NamedProp.decodeFieldConsumed, hrun, hfalse]
    | Lit s => simp [hmax, resolvedMaxConst] at hM
    | Fn s => simp [hmax, resolvedMaxConst] at hM


/-- C2: the `const` assertion generated by `validate_versions_tokens`
succeeds, for statically known constant bounds, exactly when `min ≤ max`
(when a max bound exists) and exactly when `min ≥ 0` (when no max bound
exists); a statically known `max < min` fails with the ordering message and
a statically known negative `min` with no max fails with the positivity
message, each naming the field when the field is named. -/
theorem c2_bound_validation (minP maxP : Option PropAttrsType) (f : String)
    (m : Int) (hm : resolvedConst minP = some m) :
    (∀ mx M, maxP = some mx → resolvedConst maxP = some M →
       ((evalConstAssert minP maxP (some f) = some (Except.ok ()) ↔ m ≤ M)
        ∧ (M < m → evalConstAssert minP maxP (some f) =
             some (Except.error ("On " ++ f ++ ", max version is less than min version")))))
    ∧ (maxP = none →
       ((evalConstAssert minP maxP (some f) = some (Except.ok ()) ↔ 0 ≤ m)
        ∧ (m < 0 → evalConstAssert minP maxP (some f) =
             some (Except.error ("On " ++ f ++ ", min version must be positive"))))) := by
  constructor
  · rintro mx M rfl hres
    have ha : validate_versions_tokens minP (some mx) (some f) =
        ⟨true, "On " ++ f ++ ", max version is less than min version"⟩ := rfl
    refine ⟨?_, fun hlt => ?_⟩
    · simp [evalConstAssert, ha, hm, hres]
      try omega
    · simp [evalConstAssert, ha, hm, hres]
      try omega
  · rintro rfl
    have ha : validate_versions_tokens minP none (some f) =
        ⟨false, "On " ++ f ++ ", min version must be positive"⟩ := rfl
    refine ⟨?_, fun hlt => ?_⟩
    · simp [evalConstAssert, ha, hm]
      try omega
    · simp [evalConstAssert, ha, hm]
      try omega

/-- C3 counterexample: a field with the statically known negative
`min_version = -5` and a declared `max_version = 3` passes schema-time
validation — the generated assertion accepts it, so `min ≥ 0` is not
enforced for fields that declare a max bound, contradicting the claim. -/
theorem c3_counterexample :
    evalConstAssert (some (PropAttrsType.Int (-5))) (some (PropAttrsType.Int 3))
      (some "field_a") = some (Except.ok ()) := rfl

/-- C3 (amended): for a field whose `min_version` is a statically known
constant `m`, the generated validation enforces `m ≥ 0` only when no max
bound is declared; when a max bound resolving to the constant `M` is
declared, validation succeeds exactly when `m ≤ M`, with no sign
requirement on `m`. -/
theorem c3_min_check_only_without_max (minP maxP : Option PropAttrsType)
    (f? : Option String) (m : Int) (hm : resolvedConst minP = some m) :
    (maxP = none →
      (evalConstAssert minP maxP f? = some (Except.ok ()) ↔ 0 ≤ m))
    ∧ (∀ mx M, maxP = some mx → resolvedConst maxP = some M →
        (evalConstAssert minP maxP f? = some (Except.ok ()) ↔ m ≤ M)) := by
  constructor
  · rintro rfl
    have ha : (validate_versions_tokens minP none f?).isMinMax = false := by
      cases f? <;> rfl
    simp [evalConstAssert, ha, hm]
    try omega
  · rintro mx M rfl hres
    have ha : (validate_versions_tokens minP (some mx) f?).isMinMax = true := by
      cases f? <;> rfl
    simp [evalConstAssert, ha, hm, hres]
    try omega

/-- C4 (code bug): `get_expr_value` on the bound expression `-1` — unary
negation applied to the integer literal `1` — discards the unary operator
and resolves the bound to `Int 1`, whose token is `1_i16`, not the `-1_i16`
the repository's own `test_props_attr_value_with_unary` test and the spec
expect. -/
theorem c4_unary_bound_not_negated :
    get_expr_value "min_version" (some (RsExpr.unary (RsExpr.lit (RsLit.int 1))))
      = ParseOutcome.ok (PropAttrsType.Int 1)
    ∧ prop_attrs_type_value (some (PropAttrsType.Int 1)) = "1_i16"
    ∧ prop_attrs_type_value (some (PropAttrsType.Int 1)) ≠ "-1_i16" := by
  refine ⟨by decide, rfl, by decide⟩

/-- C6 (code bug): on the raw bound expression `"foo(x)"` — a string
literal containing parentheses not as a `()` suffix — `get_expr_value`
falls through to `Ident::new` on a non-identifier string and panics instead
of returning an `InvalidBoundExpression`-style error. -/
theorem c6_panic_on_invalid_ident_string :
    get_expr_value "min_version" (some (RsExpr.lit (RsLit.str "foo(x)")))
      = ParseOutcome.panic "\"foo(x)\" is not a valid Ident" := by decide

/-- C5 counterexample: a `fluvio` attribute whose single key is the
unrecognized `unknown_key` makes `PropAttrs::from_ast` fail with the
`unrecognized fluvio attribute` error — parsing does not succeed with a
warning as the claim states. -/
theorem c5_counterexample :
    PropAttrs.from_ast [⟨some "fluvio", [⟨"unknown_key", none⟩]⟩]
      = ParseOutcome.err unrecognizedMsg := by decide

/-- C8: a field that declares no `min_version` resolves its minimum bound
to the constant `0` (token `0_i16`), and the generated guard treats the
field as present exactly at every version `v ≥ 0` (further limited by a
declared constant max bound). -/
theorem c8_default_min_is_zero (p : NamedProp) (v : Int)
    (hmin : p.attrs.min_version = none) :
    prop_attrs_type_value p.attrs.min_version = "0_i16"
    ∧ resolvedConst p.attrs.min_version = some 0
    ∧ (p.attrs.max_version = none →
        (p.versionCheckRuns v = some true ↔ 0 ≤ v))
    ∧ (∀ mx M, p.attrs.max_version = some mx →
        resolvedConst p.attrs.max_version = some M →
        (p.versionCheckRuns v = some true ↔ (0 ≤ v ∧ v ≤ M))) := by
  refine ⟨by rw [hmin]; rfl, by rw [hmin]; rfl, fun hmax => ?_, ?_⟩
  · simp only [NamedProp.versionCheckRuns, hmin, resolvedConst]
    simp [hmax]
  · rintro mx M hmax hres
    rw [hmax] at hres
    cases mx with
    | Int n =>
      simp only [resolvedConst, Option.some.injEq] at hres
      subst hres
      simp only [NamedProp.versionCheckRuns, hmin, resolvedConst, hmax]
      simp
    | Lit s => simp [resolvedConst] at hres
    | Fn s => simp [resolvedConst] at hres

theorem c1_version_gating_witness :
    ((⟨"max_bytes", "i32", ⟨false, some (.Int 3), some (.Int 9), none, none⟩⟩ :
        NamedProp).versionCheckRuns 5 = some true
      ↔ ((3 : Int) ≤ 5 ∧ ∀ mx, (some 9 : Option Int) = some mx → (5 : Int) ≤ mx))
    ∧ ((some 9 : Option Int) = none →
        ((⟨"max_bytes", "i32", ⟨false, some (.Int 3), some (.Int 9), none, none⟩⟩ :
            NamedProp).versionCheckRuns 5 = some true ↔ (5 : Int) ≥ 3))
    ∧ (⟨"i32", ⟨false, some (.Int 3), some (.Int 9), none, none⟩⟩ :
        UnnamedProp).versionCheckRuns 5
      = (⟨"max_bytes", "i32", ⟨false, some (.Int 3), some (.Int 9), none, none⟩⟩ :
          NamedProp).versionCheckRuns 5
    ∧ ((⟨"max_bytes", "i32", ⟨false, some (.Int 3), some (.Int 9), none, none⟩⟩ :
          NamedProp).versionCheckRuns 5 ≠ some true →
        (⟨"max_bytes", "i32", ⟨false, some (.Int 3), some (.Int 9), none, none⟩⟩ :
            NamedProp).encodeFieldBytes 5 [7, 8] = some []
        ∧ (⟨"max_bytes", "i32", ⟨false, some (.Int 3), some (.Int 9), none, none⟩⟩ :
            NamedProp).decodeFieldConsumed 5 2 = some 0) :=
  c1_version_gating _ _ 5 3 (some 9) [7, 8] 2 rfl rfl rfl

theorem c2_bound_validation_witness :
    (∀ mx M, (some (PropAttrsType.Int 5) : Option PropAttrsType) = some mx →
       resolvedConst (some (PropAttrsType.Int 5)) = some M →
       ((evalConstAssert (some (PropAttrsType.Int 2)) (some (PropAttrsType.Int 5))
            (some "foo") = some (Except.ok ()) ↔ (2 : Int) ≤ M)
        ∧ (M < 2 → evalConstAssert (some (PropAttrsType.Int 2))
             (some (PropAttrsType.Int 5)) (some "foo") =
             some (Except.error ("On " ++ "foo" ++ ", max version is less than min version")))))
    ∧ ((some (PropAttrsType.Int 5) : Option PropAttrsType) = none →
       ((evalConstAssert (some (PropAttrsType.Int 2)) (some (PropAttrsType.Int 5))
            (some "foo") = some (Except.ok ()) ↔ (0 : Int) ≤ 2)
        ∧ ((2 : Int) < 0 → evalConstAssert (some (PropAttrsType.Int 2))
             (some (PropAttrsType.Int 5)) (some "foo") =
             some (Except.error ("On " ++ "foo" ++ ", min version must be positive"))))) :=
  c2_bound_validation (some (PropAttrsType.Int 2)) (some (PropAttrsType.Int 5)) "foo" 2 rfl

theorem c3_min_check_only_without_max_witness :
    ((some (PropAttrsType.Int 3) : Option PropAttrsType) = none →
      (evalConstAssert (some (PropAttrsType.Int (-5))) (some (PropAttrsType.Int 3))
          (some "field_a") = some (Except.ok ()) ↔ (0 : Int) ≤ -5))
    ∧ (∀ mx M, (some (PropAttrsType.Int 3) : Option PropAttrsType) = some mx →
        resolvedConst (some (PropAttrsType.Int 3)) = some M →
        (evalConstAssert (some (PropAttrsType.Int (-5))) (some (PropAttrsType.Int 3))
            (some "field_a") = some (Except.ok ()) ↔ (-5 : Int) ≤ M)) :=
  c3_min_check_only_without_max (some (PropAttrsType.Int (-5)))
    (some (PropAttrsType.Int 3)) (some "field_a") (-5) rfl

theorem c8_default_min_is_zero_witness :
    prop_attrs_type_value (⟨"isolation_level", "Isolation",
        ⟨false, none, none, none, none⟩⟩ : NamedProp).attrs.min_version = "0_i16"
    ∧ resolvedConst (⟨"isolation_level", "Isolation",
        ⟨false, none, none, none, none⟩⟩ : NamedProp).attrs.min_version = some 0
    ∧ ((⟨"isolation_level", "Isolation",
          ⟨false, none, none, none, none⟩⟩ : NamedProp).attrs.max_version = none →
        ((⟨"isolation_level", "Isolation",
            ⟨false, none, none, none, none⟩⟩ : NamedProp).versionCheckRuns 3 = some true
          ↔ (0 : Int) ≤ 3))
    ∧ (∀ mx M, (⟨"isolation_level", "Isolation",
          ⟨false, none, none, none, none⟩⟩ : NamedProp).attrs.max_version = some mx →
        resolvedConst (⟨"isolation_level", "Isolation",
          ⟨false, none, none, none, none⟩⟩ : NamedProp).attrs.max_version = some M →
        ((⟨"isolation_level", "Isolation",
            ⟨false, none, none, none, none⟩⟩ : NamedProp).versionCheckRuns 3 = some true
          ↔ ((0 : Int) ≤ 3 ∧ (3 : Int) ≤ M))) :=
  c8_default_min_is_zero ⟨"isolation_level", "Isolation",
    ⟨false, none, none, none, none⟩⟩ 3 rfl


theorem findPartitionInList_eq {α : Type} (partition : Int)
    (ps : List (FetchablePartitionResponse α)) :
    findPartitionInList partition ps =
      (ps.filter (fun p => decide (p.partition_index = partition))).head? := by
  induction ps with
  | nil => rfl
  | cons p rest ih =>
    simp only [findPartitionInList, List.filter]
    by_cases h : p.partition_index = partition
    · simp [h]
    · simp [h, ih]

/-- C9: `KfFetchResponse::find_partition(topic, partition)` returns the
first partition response, in declaration order, that belongs to a topic
response named `topic` and has the requested `partition_index`, and
returns `none` exactly when no topic response with that name contains a
partition response with that index. -/
theorem c9_find_partition {α : Type} (resp : KfFetchResponse α)
    (topic : String) (partition : Int) :
    resp.find_partition topic partition =
      ((resp.topics.filter (fun t => decide (t.name = topic))).flatMap
        (fun t => t.partitions.filter
          (fun p => decide (p.partition_index = partition)))).head?
    ∧ (resp.find_partition topic partition = none ↔
        ∀ t ∈ resp.topics, t.name = topic →
          ∀ p ∈ t.partitions, p.partition_index ≠ partition) := by
  have hmain : ∀ ts : List (FetchableTopicResponse α),
      findPartitionInTopics topic partition ts =
        ((ts.filter (fun t => decide (t.name = topic))).flatMap
          (fun t => t.partitions.filter
            (fun p => decide (p.partition_index = partition)))).head? := by
    intro ts
    induction ts with
    | nil => rfl
    | cons t rest ih =>
      simp only [findPartitionInTopics]
      by_cases h : t.name = topic
      · rw [findPartitionInList_eq]
        have hf : (t :: rest).filter (fun t => decide (t.name = topic)) =
            t :: rest.filter (fun t => decide (t.name = topic)) := by simp [h]
        rw [hf, List.flatMap_cons, List.head?_append]
        cases hc : (t.partitions.filter
            (fun p => decide (p.partition_index = partition))).head? with
        | none => simp [h, hc, ih]
        | some p => simp [h, hc]
      · have hf : (t :: rest).filter (fun t => decide (t.name = topic)) =
            rest.filter (fun t => decide (t.name = topic)) := by simp [h]
        rw [hf]
        simp [h, ih]
  refine ⟨hmain resp.topics, ?_⟩
  rw [KfFetchResponse.find_partition, hmain]
  simp [List.head?_eq_none_iff, List.flatMap_eq_nil_iff, List.filter_eq_nil_iff,
    List.mem_filter]


theorem processMetas_cons_ok {st st' : PropAttrs} {m : FluvioMeta}
    {ms : List FluvioMeta} :
    st.processMetas (m :: ms) = .ok st' ↔
      ∃ st2, st.processMeta m = .ok st2 ∧ st2.processMetas ms = .ok st' := by
  simp only [PropAttrs.processMetas]
  cases h : st.processMeta m <;> simp

theorem processMeta_ok_recognized {st st2 : PropAttrs} {m : FluvioMeta}
    (h : st.processMeta m = .ok st2) : recognizedKey m.key = true := by
  unfold PropAttrs.processMeta at h
  split_ifs at h with h1 h2 h3 h4
  · simp [recognizedKey, h1]
  · simp [recognizedKey, h2]
  · simp [recognizedKey, h3]
  · simp [recognizedKey, h4]

theorem processMeta_sets_key {st st2 : PropAttrs} {m : FluvioMeta}
    (h : st.processMeta m = .ok st2) :
    keySet st m.key = false ∧ keySet st2 m.key = true := by
  unfold PropAttrs.processMeta at h
  split_ifs at h with h1 h2 h3 h4
  · cases hmv : st.min_version with
    | some w => rw [hmv] at h; simp at h
    | none =>
      rw [hmv] at h
      cases hg : get_expr_value m.key m.value with
      | ok v =>
        rw [hg] at h
        simp only [ParseOutcome.ok.injEq] at h
        subst h
        simp [keySet, h1, hmv]
      | err e => rw [hg] at h; simp at h
      | panic pm => rw [hg] at h; simp at h
  · cases hmv : st.max_version with
    | some w => rw [hmv] at h; simp at h
    | none =>
      rw [hmv] at h
      cases hg : get_expr_value m.key m.value with
      | ok v =>
        rw [hg] at h
        simp only [ParseOutcome.ok.injEq] at h
        subst h
        simp [keySet, h1, h2, hmv]
      | err e => rw [hg] at h; simp at h
      | panic pm => rw [hg] at h; simp at h
  · cases hmv : st.default_value with
    | some w => rw [hmv] at h; simp at h
    | none =>
      rw [hmv] at h
      cases hg : get_lit_str m.key m.value with
      | ok v =>
        rw [hg] at h
        simp only [ParseOutcome.ok.injEq] at h
        subst h
        simp [keySet, h1, h2, h3, hmv]
      | err e => rw [hg] at h; simp at h
      | panic pm => rw [hg] at h; simp at h
  · cases hmv : st.ignorable with
    | some w => rw [hmv] at h; simp at h
    | none =>
      rw [hmv] at h
      simp only [ParseOutcome.ok.injEq] at h
      subst h
      simp [keySet, h1, h2, h3, h4, hmv]

theorem processMeta_keeps_other {st st2 : PropAttrs} {m : FluvioMeta} {k : String}
    (h : st.processMeta m = .ok st2) (hne : k ≠ m.key) :
    keySet st2 k = keySet st k := by
  unfold PropAttrs.processMeta at h
  split_ifs at h with h1 h2 h3 h4
  · rw [h1] at hne
    cases hmv : st.min_version with
    | some w => rw [hmv] at h; simp at h
    | none =>
      rw [hmv] at h
      cases hg : get_expr_value m.key m.value with
      | ok v =>
        rw [hg] at h
        simp only [ParseOutcome.ok.injEq] at h
        subst h
        simp [keySet, hne]
      | err e => rw [hg] at h; simp at h
      | panic pm => rw [hg] at h; simp at h
  · rw [h2] at hne
    cases hmv : st.max_version with
    | some w => rw [hmv] at h; simp at h
    | none =>
      rw [hmv] at h
      cases hg : get_expr_value m.key m.value with
      | ok v =>
        rw [hg] at h
        simp only [ParseOutcome.ok.injEq] at h
        subst h
        simp [keySet, hne]
      | err e => rw [hg] at h; simp at h
      | panic pm => rw [hg] at h; simp at h
  · rw [h3] at hne
    cases hmv : st.default_value with
    | some w => rw [hmv] at h; simp at h
    | none =>
      rw [hmv] at h
      cases hg : get_lit_str m.key m.value with
      | ok v =>
        rw [hg] at h
        simp only [ParseOutcome.ok.injEq] at h
        subst h
        simp [keySet, hne]
      | err e => rw [hg] at h; simp at h
      | panic pm => rw [hg] at h; simp at h
  · rw [h4] at hne
    cases hmv : st.ignorable with
    | some w => rw [hmv] at h; simp at h
    | none =>
      rw [hmv] at h
      simp only [ParseOutcome.ok.injEq] at h
      subst h
      simp [keySet, hne]


theorem processMeta_ignorable_cases {st st2 : PropAttrs} {m : FluvioMeta}
    (h : st.processMeta m = .ok st2) :
    (m.key ≠ "ignorable" ∧ st2.ignorable = st.ignorable)
    ∨ (m.key = "ignorable" ∧ st.ignorable = none ∧ st2.ignorable = some true) := by
  unfold PropAttrs.processMeta at h
  split_ifs at h with h1 h2 h3 h4
  · cases hmv : st.min_version with
    | some w => rw [hmv] at h; simp at h
    | none =>
      rw [hmv] at h
      cases hg : get_expr_value m.key m.value with
      | ok v =>
        rw [hg] at h
        simp only [ParseOutcome.ok.injEq] at h
        subst h
        exact Or.inl ⟨by simp [h1], rfl⟩
      | err e => rw [hg] at h; simp at h
      | panic pm => rw [hg] at h; simp at h
  · cases hmv : st.max_version with
    | some w => rw [hmv] at h; simp at h
    | none =>
      rw [hmv] at h
      cases hg : get_expr_value m.key m.value with
      | ok v =>
        rw [hg] at h
        simp only [ParseOutcome.ok.injEq] at h
        subst h
        exact Or.inl ⟨by simp [h2], rfl⟩
      | err e => rw [hg] at h; simp at h
      | panic pm => rw [hg] at h; simp at h
  · cases hmv : st.default_value with
    | some w => rw [hmv] at h; simp at h
    | none =>
      rw [hmv] at h
      cases hg : get_lit_str m.key m.value with
      | ok v =>
        rw [hg] at h
        simp only [ParseOutcome.ok.injEq] at h
        subst h
        exact Or.inl ⟨by simp [h3], rfl⟩
      | err e => rw [hg] at h; simp at h
      | panic pm => rw [hg] at h; simp at h
  · cases hmv : st.ignorable with
    | some w => rw [hmv] at h; simp at h
    | none =>
      rw [hmv] at h
      simp only [ParseOutcome.ok.injEq] at h
      subst h
      exact Or.inr ⟨h4, rfl, rfl⟩

theorem processMeta_already {st : PropAttrs} {m : FluvioMeta}
    (hrec : recognizedKey m.key = true) (hset : keySet st m.key = true) :
    st.processMeta m = .err alreadySpecifiedMsg := by
  unfold recognizedKey at hrec
  unfold PropAttrs.processMeta
  by_cases h1 : m.key = "min_version"
  · simp only [h1, if_true]
    have : st.min_version.isSome = true := by simpa [keySet, h1] using hset
    cases hmv : st.min_version with
    | some w => simp
    | none => rw [hmv] at this; simp at this
  · by_cases h2 : m.key = "max_version"
    · simp only [h1, if_false, h2, if_true]
      have : st.max_version.isSome = true := by simpa [keySet, h1, h2] using hset
      cases hmv : st.max_version with
      | some w => simp [h1]
      | none => rw [hmv] at this; simp at this
    · by_cases h3 : m.key = "default"
      · simp only [h1, if_false, h2, h3, if_true]
        have : st.default_value.isSome = true := by simpa [keySet, h1, h2, h3] using hset
        cases hmv : st.default_value with
        | some w => simp [h1, h2]
        | none => rw [hmv] at this; simp at this
      · by_cases h4 : m.key = "ignorable"
        · simp only [h1, if_false, h2, h3, h4, if_true]
          have : st.ignorable.isSome = true := by simpa [keySet, h1, h2, h3, h4] using hset
          cases hmv : st.ignorable with
          | some w => simp [h1, h2, h3]
          | none => rw [hmv] at this; simp at this
        · simp [h1, h2, h3, h4] at hrec

theorem processMeta_wf_ok {st : PropAttrs} {m : FluvioMeta}
    (hwf : metaWf m = true) (hfree : keySet st m.key = false) :
    ∃ st2, st.processMeta m = .ok st2 := by
  unfold metaWf at hwf
  split_ifs at hwf with h1 h2 h3
  · have h' : st.min_version.isSome = false := by simpa [keySet, h1] using hfree
    have hmv : st.min_version = none := by cases hx : st.min_version <;> simp_all
    cases hg : get_expr_value m.key m.value with
    | ok v =>
      rw [h1] at hg
      exact ⟨{st with min_version := some v}, by
        simp [PropAttrs.processMeta, h1, hmv, hg]⟩
    | err e => rw [hg] at hwf; simp [ParseOutcome.isOk] at hwf
    | panic pm => rw [hg] at hwf; simp [ParseOutcome.isOk] at hwf
  · have h' : st.max_version.isSome = false := by simpa [keySet, h1, h2] using hfree
    have hmv : st.max_version = none := by cases hx : st.max_version <;> simp_all
    cases hg : get_expr_value m.key m.value with
    | ok v =>
      rw [h2] at hg
      exact ⟨{st with max_version := some v}, by
        simp [PropAttrs.processMeta, h1, h2, hmv, hg]⟩
    | err e => rw [hg] at hwf; simp [ParseOutcome.isOk] at hwf
    | panic pm => rw [hg] at hwf; simp [ParseOutcome.isOk] at hwf
  · have h' : st.default_value.isSome = false := by simpa [keySet, h1, h2, h3] using hfree
    have hmv : st.default_value = none := by cases hx : st.default_value <;> simp_all
    cases hg : get_lit_str m.key m.value with
    | ok v =>
      rw [h3] at hg
      exact ⟨{st with default_value := some v}, by
        simp [PropAttrs.processMeta, h1, h2, h3, hmv, hg]⟩
    | err e => rw [hg] at hwf; simp [ParseOutcome.isOk] at hwf
    | panic pm => rw [hg] at hwf; simp [ParseOutcome.isOk] at hwf
  · have h4 : m.key = "ignorable" := by simpa using hwf
    have h' : st.ignorable.isSome = false := by simpa [keySet, h1, h2, h3, h4] using hfree
    have hmv : st.ignorable = none := by cases hx : st.ignorable <;> simp_all
    exact ⟨{st with ignorable := some true}, by
      simp [PropAttrs.processMeta, h1, h2, h3, h4, hmv]⟩


theorem countKey_cons (m : FluvioMeta) (ms : List FluvioMeta) (k : String) :
    countKey (m :: ms) k = (if m.key = k then 1 else 0) + countKey ms k := by
  by_cases h : m.key = k <;>
    simp [countKey, List.filter_cons, h] <;> try omega

theorem processMetas_ok_count {ms : List FluvioMeta} {st r : PropAttrs}
    {k : String} (hrec : recognizedKey k = true)
    (h : st.processMetas ms = .ok r) :
    countKey ms k + (if keySet st k then 1 else 0) ≤ 1 := by
  induction ms generalizing st with
  | nil => simp [countKey]; split_ifs <;> omega
  | cons m rest ih =>
    obtain ⟨st2, h1, h2⟩ := processMetas_cons_ok.mp h
    by_cases hk : m.key = k
    · subst hk
      obtain ⟨hfree, hset⟩ := processMeta_sets_key h1
      have := ih h2
      rw [hset] at this
      rw [countKey_cons, hfree]
      simp at this ⊢
      omega
    · have hkeep : keySet st2 k = keySet st k := processMeta_keeps_other h1 (fun he => hk he.symm)
      have := ih h2
      rw [hkeep] at this
      rw [countKey_cons]
      simp [hk]
      omega

theorem processMetas_wf_success {ms : List FluvioMeta} {st : PropAttrs}
    (hwf : ∀ x ∈ ms, metaWf x = true)
    (hinv : ∀ k, recognizedKey k = true →
      countKey ms k + (if keySet st k then 1 else 0) ≤ 1) :
    ∃ r, st.processMetas ms = .ok r := by
  induction ms generalizing st with
  | nil => exact ⟨st, rfl⟩
  | cons m rest ih =>
    have hwm : metaWf m = true := hwf m (by simp)
    have hrec : recognizedKey m.key = true := by
      unfold metaWf at hwm
      split_ifs at hwm with h1 h2 h3
      · simp [recognizedKey, h1]
      · simp [recognizedKey, h2]
      · simp [recognizedKey, h3]
      · have h4 : m.key = "ignorable" := by simpa using hwm
        simp [recognizedKey, h4]
    have hfree : keySet st m.key = false := by
      by_contra hc
      have hset : keySet st m.key = true := by
        cases hx : keySet st m.key
        · exact absurd hx hc
        · rfl
      have := hinv m.key hrec
      rw [hset, countKey_cons] at this
      simp at this
    obtain ⟨st2, hok⟩ := processMeta_wf_ok hwm hfree
    have hset2 : keySet st2 m.key = true := (processMeta_sets_key hok).2
    obtain ⟨r, hr⟩ := ih (fun x hx => hwf x (by simp [hx]))
      (fun k hk => by
        by_cases hkm : m.key = k
        · subst hkm
          have := hinv m.key hk
          rw [countKey_cons, hfree] at this
          simp at this
          rw [hset2]
          simp
          omega
        · have hkeep : keySet st2 k = keySet st k :=
            processMeta_keeps_other hok (fun he => hkm he.symm)
          have := hinv k hk
          rw [countKey_cons] at this
          rw [hkeep]
          simp [hkm] at this
          omega)
    exact ⟨r, processMetas_cons_ok.mpr ⟨st2, hok, hr⟩⟩


theorem processMetas_ignorable_true {ms : List FluvioMeta} {st r : PropAttrs}
    (h : st.processMetas ms = .ok r) (hi : st.ignorable = some true) :
    r.ignorable = some true := by
  induction ms generalizing st with
  | nil =>
    simp only [PropAttrs.processMetas, ParseOutcome.ok.injEq] at h
    exact h ▸ hi
  | cons m rest ih =>
    obtain ⟨st2, h1, h2⟩ := processMetas_cons_ok.mp h
    rcases processMeta_ignorable_cases h1 with ⟨_, heq⟩ | ⟨_, hnone, _⟩
    · exact ih h2 (heq.trans hi)
    · rw [hnone] at hi; simp at hi

theorem processMetas_ignorable_none {ms : List FluvioMeta} {st r : PropAttrs}
    (h : st.processMetas ms = .ok r) (hi : st.ignorable = none) :
    (r.ignorable = some true ↔ ∃ x ∈ ms, x.key = "ignorable")
    ∧ r.ignorable ≠ some false := by
  induction ms generalizing st with
  | nil =>
    simp only [PropAttrs.processMetas, ParseOutcome.ok.injEq] at h
    subst h
    simp [hi]
  | cons m rest ih =>
    obtain ⟨st2, h1, h2⟩ := processMetas_cons_ok.mp h
    rcases processMeta_ignorable_cases h1 with ⟨hne, heq⟩ | ⟨hkey, _, htrue⟩
    · have := ih h2 (heq.trans hi)
      constructor
      · rw [this.1]
        constructor
        · rintro ⟨x, hx, hxk⟩
          exact ⟨x, by simp [hx], hxk⟩
        · rintro ⟨x, hx, hxk⟩
          rcases List.mem_cons.mp hx with rfl | hx2
          · exact absurd hxk hne
          · exact ⟨x, hx2, hxk⟩
      · exact this.2
    · have hr : r.ignorable = some true := processMetas_ignorable_true h2 htrue
      constructor
      · rw [hr]
        simp only [true_iff]
        exact ⟨m, by simp, hkey⟩
      · rw [hr]; simp

theorem processMetas_append (st : PropAttrs) (xs ys : List FluvioMeta) :
    st.processMetas (xs ++ ys) =
      match st.processMetas xs with
      | .ok st2 => st2.processMetas ys
      | .err e => .err e
      | .panic p => .panic p := by
  induction xs generalizing st with
  | nil => simp [PropAttrs.processMetas]
  | cons m rest ih =>
    simp only [List.cons_append, PropAttrs.processMetas]
    cases h : st.processMeta m with
    | ok st2 => exact ih st2
    | err e => rfl
    | panic p => rfl

theorem processAttrs_eq_processMetas (st : PropAttrs) (attrs : List RsAttribute) :
    st.processAttrs attrs = st.processMetas (fluvioMetasOf attrs) := by
  induction attrs generalizing st with
  | nil => rfl
  | cons a rest ih =>
    by_cases h : a.pathIdent = some "fluvio"
    · have hf : fluvioMetasOf (a :: rest) = a.fluvioMetas ++ fluvioMetasOf rest := by
        simp [fluvioMetasOf, List.filter_cons, h]
      rw [hf, processMetas_append]
      simp only [PropAttrs.processAttrs, h, if_true]
      cases hx : st.processMetas a.fluvioMetas with
      | ok st2 => exact ih st2
      | err e => rfl
      | panic p => rfl
    · have hf : fluvioMetasOf (a :: rest) = fluvioMetasOf rest := by
        simp [fluvioMetasOf, List.filter_cons, h]
      rw [hf]
      simp only [PropAttrs.processAttrs, h, if_false]
      exact ih st

theorem processMetas_ok_all_recognized {ms : List FluvioMeta} {st r : PropAttrs}
    (h : st.processMetas ms = .ok r) :
    ∀ x ∈ ms, recognizedKey x.key = true := by
  induction ms generalizing st with
  | nil => intro x hx; simp at hx
  | cons m rest ih =>
    obtain ⟨st2, h1, h2⟩ := processMetas_cons_ok.mp h
    intro x hx
    rcases List.mem_cons.mp hx with rfl | hx2
    · exact processMeta_ok_recognized h1
    · exact ih h2 x hx2


theorem keySet_all_none (k : String) :
    keySet ⟨false, none, none, none, none⟩ k = false := by
  simp [keySet]

/-- C5 (amended): a key inside the `fluvio` attribute that is not one of
`min_version`, `max_version`, `default`, `ignorable` makes the nested-meta
processing fail with the `unrecognized fluvio attribute` error — it is not
tolerated with a warning — and a successfully parsed declaration contains
only recognized keys. -/
theorem c5_unrecognized_key_rejected (st : PropAttrs) (m : FluvioMeta)
    (hk : recognizedKey m.key = false) :
    st.processMeta m = .err unrecognizedMsg
    ∧ ∀ ms r, st.processMetas ms = .ok r → ∀ x ∈ ms, recognizedKey x.key = true := by
  have h1 : m.key ≠ "min_version" := fun he => by simp [recognizedKey, he] at hk
  have h2 : m.key ≠ "max_version" := fun he => by simp [recognizedKey, he] at hk
  have h3 : m.key ≠ "default" := fun he => by simp [recognizedKey, he] at hk
  have h4 : m.key ≠ "ignorable" := fun he => by simp [recognizedKey, he] at hk
  refine ⟨by simp [PropAttrs.processMeta, h1, h2, h3, h4], ?_⟩
  intro ms r h
  exact processMetas_ok_all_recognized h

theorem c5_unrecognized_key_rejected_witness :
    PropAttrs.init.processMeta ⟨"unknown_key", none⟩ = .err unrecognizedMsg
    ∧ ∀ ms r, PropAttrs.init.processMetas ms = .ok r →
        ∀ x ∈ ms, recognizedKey x.key = true :=
  c5_unrecognized_key_rejected PropAttrs.init ⟨"unknown_key", none⟩ (by decide)

/-- C7: if any recognized key appears more than once inside the `fluvio`
attribute of a field declaration, parsing the declaration fails (a parsed
declaration never contains a repeated recognized key); conversely, when
every meta item is well formed and no recognized key repeats, parsing
succeeds; and processing a recognized key whose slot is already filled
fails with the `fluvio attribute already specified` duplicate error. -/
theorem c7_duplicate_attribute (ms : List FluvioMeta) :
    (∀ r, PropAttrs.from_ast [⟨some "fluvio", ms⟩] = .ok r →
        noDupRecognized ms = true)
    ∧ ((∀ x ∈ ms, metaWf x = true) → noDupRecognized ms = true →
        ∃ r, PropAttrs.from_ast [⟨some "fluvio", ms⟩] = .ok r)
    ∧ (∀ st m, recognizedKey m.key = true → keySet st m.key = true →
        st.processMeta m = .err alreadySpecifiedMsg) := by
  have hst0 : PropAttrs.from_ast [⟨some "fluvio", ms⟩] =
      PropAttrs.processMetas ⟨false, none, none, none, none⟩ ms := by
    simp [PropAttrs.from_ast, processAttrs_eq_processMetas, fluvioMetasOf,
      PropAttrs.init]
  refine ⟨?_, ?_, fun st m hrec hset => processMeta_already hrec hset⟩
  · intro r hr
    rw [hst0] at hr
    have hmin := processMetas_ok_count (k := "min_version") (by decide) hr
    have hmax := processMetas_ok_count (k := "max_version") (by decide) hr
    have hdef := processMetas_ok_count (k := "default") (by decide) hr
    have hign := processMetas_ok_count (k := "ignorable") (by decide) hr
    rw [keySet_all_none] at hmin hmax hdef hign
    simp at hmin hmax hdef hign
    simp [noDupRecognized]
    exact ⟨⟨⟨hmin, hmax⟩, hdef⟩, hign⟩
  · intro hwf hnd
    rw [hst0]
    refine processMetas_wf_success hwf ?_
    intro k hk
    simp [keySet_all_none]
    simp [noDupRecognized] at hnd
    simp [recognizedKey] at hk
    rcases hk with ((rfl | rfl) | rfl) | rfl
    · exact hnd.1.1.1
    · exact hnd.1.1.2
    · exact hnd.1.2
    · exact hnd.2

theorem c7_duplicate_attribute_witness :
    ∃ r, PropAttrs.from_ast [⟨some "fluvio",
      [⟨"min_version", some (RsExpr.lit (RsLit.int 3))⟩,
       ⟨"ignorable", none⟩]⟩] = .ok r :=
  (c7_duplicate_attribute _).2.1 (by decide) (by decide)

theorem from_ast_rejects_repeated_min_version :
    PropAttrs.from_ast [⟨some "fluvio",
      [⟨"min_version", some (RsExpr.lit (RsLit.int 3))⟩,
       ⟨"min_version", some (RsExpr.lit (RsLit.int 4))⟩]⟩]
      = ParseOutcome.err alreadySpecifiedMsg := by decide

/-- C10: a successfully parsed field declaration never has
`ignorable = some false`: the flag is `some true` exactly when the
`ignorable` key appears among the declaration's `fluvio` metas, and `none`
otherwise. -/
theorem c10_ignorable_flag (attrs : List RsAttribute) (r : PropAttrs)
    (h : PropAttrs.from_ast attrs = .ok r) :
    r.ignorable ≠ some false
    ∧ (r.ignorable = some true ↔
        ∃ x ∈ fluvioMetasOf attrs, x.key = "ignorable") := by
  simp only [PropAttrs.from_ast] at h
  rw [processAttrs_eq_processMetas] at h
  have hres := processMetas_ignorable_none h rfl
  exact ⟨hres.2, hres.1⟩

theorem c10_ignorable_flag_witness :
    (⟨false, none, none, none, some true⟩ : PropAttrs).ignorable ≠ some false
    ∧ ((⟨false, none, none, none, some true⟩ : PropAttrs).ignorable = some true ↔
        ∃ x ∈ fluvioMetasOf [⟨some "fluvio", [⟨"ignorable", none⟩]⟩],
          x.key = "ignorable") :=
  c10_ignorable_flag [⟨some "fluvio", [⟨"ignorable", none⟩]⟩]
    ⟨false, none, none, none, some true⟩ (by decide)

end Fluvio
